import Mathlib

/-!
Verification of the Spendesk reconciliation and enrichment utilities
(`spendesk_rec.py`, `formatting.py`).

The development shallowly embeds the data-transformation core of the two
scripts.  Spreadsheet input/output, console interaction and cell styling are
external collaborators (spec section 1) and are not embedded; tables are
lists of records, absent cells are `Option`/explicit `null` constructors, and
floating-point amounts are idealised as exact rationals `ℚ` (the spec's data
model treats amounts as decimals).  String operations mirror the Python ones
on ASCII data: `str.strip`, the regex replacement of whitespace runs, and
`str.lower` are implemented character-by-character so that every definition
is executable by kernel reduction.
-/

/-- Characters the Python `\s` class and `str.strip` treat as whitespace
(ASCII fragment). -/
def isWs (c : Char) : Bool :=
  c == ' ' || c == '\t' || c == '\n' || c == '\r' || c == '\x0b' || c == '\x0c'

/-- Model of Python `str.strip()`: drop leading and trailing whitespace.
Trailing whitespace is removed first (the two sides are independent, so the
order does not change the result). -/
def stripChars (l : List Char) : List Char :=
  ((l.reverse.dropWhile isWs).reverse).dropWhile isWs

/-- Model of the regex substitution `re.sub(r'\s+', ' ', s)` used by
`clean_data` via `.str.replace`: every maximal run of whitespace becomes a
single space.  The boolean argument records whether the previous character
belonged to a whitespace run. -/
def collapseAux : Bool → List Char → List Char
  | _, [] => []
  | prevWs, c :: t =>
    if isWs c then
      if prevWs then collapseAux true t else ' ' :: collapseAux true t
    else c :: collapseAux false t

/-- Whitespace-run collapsing on strings. -/
def collapseWs (s : String) : String := ⟨collapseAux false s.data⟩

/-- Python `str.strip()` on strings. -/
def pyStrip (s : String) : String := ⟨stripChars s.data⟩

/-- The normalisation `clean_data` applies to `Payer` and `Description`:
`.str.strip()` followed by `.str.replace(r'\s+', ' ', regex=True)`. -/
def normStr (s : String) : String := collapseWs (pyStrip s)

/-- ASCII model of Python `str.lower()`. -/
def lowerChar (c : Char) : Char :=
  if 'A'.toNat ≤ c.toNat && c.toNat ≤ 'Z'.toNat then Char.ofNat (c.toNat + 32) else c

/-- Lowercasing on strings (`.str.lower()` in `clean_data`). -/
def lowerStr (s : String) : String := ⟨s.data.map lowerChar⟩

/-- Model of the regex test `.str.contains(r'^\s*$', regex=True)` after
normalisation: the string consists only of whitespace (the empty string
matches as well). -/
def onlyWs (s : String) : Bool := s.data.all isWs

/-- Model of `astype(str)` on a possibly missing text cell: pandas renders a
missing value (`NaN`) as the string `"nan"`. -/
def strOfCell : Option String → String
  | none => "nan"
  | some s => s

/-- Normalised text of a raw `Payer`/`Description` cell. -/
def normCell (c : Option String) : String := normStr (strOfCell c)

/-- The blank test of `clean_data` (lines 106-113 and 121-128 of
`spendesk_rec.py`), applied to an already normalised value: equal to
`'nan'`, `'NaN'`, `'None'` or `''`, lowercases to `'nan'`, or matches
`^\s*$`. -/
def blankStr (v : String) : Bool :=
  v == "nan" || v == "NaN" || v == "None" || v == "" ||
    lowerStr v == "nan" || onlyWs v

/-- The spec's blank classification (spec section 4.1, claim C5), stated on a
normalised value: empty, case-insensitively `"nan"` or `"none"`, or
whitespace only.  This definition follows the spec's words and is compared
against `blankStr`, which is translated from the code. -/
def specBlankStr (v : String) : Bool :=
  v == "" || lowerStr v == "nan" || lowerStr v == "none" || onlyWs v

/-- A cell of the designated amount column (`Signed Total Amount` or
`Debit`) or of `Credit`: missing, a text value, or a numeric value. -/
inductive ACell where
  | anull : ACell
  | astr : String → ACell
  | anum : ℚ → ACell
deriving DecidableEq

/-- Split a character list at the first `'.'`, keeping the remainder (used
by the decimal parser below). -/
def splitDot : List Char → List Char × Option (List Char)
  | [] => ([], none)
  | c :: t =>
    if c == '.' then ([], some t)
    else
      let r := splitDot t
      (c :: r.1, r.2)

/-- Numeric value of a decimal digit character. -/
def digitVal (c : Char) : Option Nat :=
  if '0'.toNat ≤ c.toNat && c.toNat ≤ '9'.toNat then some (c.toNat - '0'.toNat) else none

/-- Every character is a decimal digit. -/
def allDigits (l : List Char) : Bool := l.all (fun c => (digitVal c).isSome)

/-- Big-endian value of a digit-character list. -/
def valBE (l : List Char) : Nat :=
  l.foldl (fun a c => 10 * a + ((digitVal c).getD 0)) 0

/-- Parse an unsigned decimal literal (digits, optionally with a fractional
part after one `'.'`; at least one digit overall). -/
def parsePosDec (l : List Char) : Option ℚ :=
  let s := splitDot l
  match s.2 with
  | none => if !l.isEmpty && allDigits l then some (valBE l) else none
  | some fp =>
    if (!s.1.isEmpty || !fp.isEmpty) && allDigits s.1 && allDigits fp then
      some ((valBE s.1 : ℚ) + (valBE fp : ℚ) / 10 ^ fp.length)
    else none

/-- Model of `pd.to_numeric(·, errors='coerce')` on a string: strip
whitespace, accept an optional sign and a decimal literal; anything else is
coerced to `NaN` (here `none`).  Exponent notation is out of scope of the
claims and not modelled. -/
def parseRat (s : String) : Option ℚ :=
  match stripChars s.data with
  | [] => none
  | c :: rest =>
    if c == '-' then (parsePosDec rest).map Neg.neg
    else if c == '+' then parsePosDec rest
    else parsePosDec (c :: rest)

/-- Numeric reading of an amount cell, as `pd.to_numeric(·, errors='coerce')`
would produce it (`none` plays the role of `NaN`). -/
def toNumericCell : ACell → Option ℚ
  | ACell.anull => none
  | ACell.astr s => parseRat s
  | ACell.anum q => some q

/-- Does the cell hold a numeric value (used to state the spec's claim C2)? -/
def isNumericCell (c : ACell) : Bool := (toNumericCell c).isSome

/-- A raw input row after column selection: `Payer`, `Description`, the
designated amount column, and (for Statement files) `Credit`.  For
Bookkeeping rows the `credit` field is unused and conventionally
`ACell.anull`. -/
structure Row where
  payer : Option String
  description : Option String
  amount : ACell
  credit : ACell
deriving DecidableEq

/-- A cleaned row: text fields normalised, amount and credit untouched. -/
structure CRow where
  payer : String
  description : String
  amount : ACell
  credit : ACell
deriving DecidableEq

/-- Normalisation applied by `clean_data` step 2 to a whole row. -/
def normRow (r : Row) : CRow :=
  { payer := normCell r.payer
    description := normCell r.description
    amount := r.amount
    credit := r.credit }

/-- `dropna(how='all')` test of `clean_data` step 1: every selected column is
missing.  Bookkeeping tables have three selected columns, Statement tables
four (including `Credit`). -/
def allNullRow (isBk : Bool) (r : Row) : Bool :=
  r.payer == none && r.description == none && r.amount == ACell.anull &&
    (isBk || r.credit == ACell.anull)

/-- Embedding of `clean_data` (`spendesk_rec.py` lines 87-192): drop all-null
rows, normalise `Payer`/`Description`, drop rows where both are blank, then
drop rows whose designated amount is null.  The empty-result error is part of
the loader pipeline (`recRun` below), not of this row transformation. -/
def clean_data (isBk : Bool) (rows : List Row) : List CRow :=
  let step1 := rows.filter (fun r => !(allNullRow isBk r))
  let step2 := step1.map normRow
  let step3 := step2.filter (fun c => !(blankStr c.payer && blankStr c.description))
  step3.filter (fun c => !(c.amount == ACell.anull))

/-- Row-survival predicate actually enforced by `clean_data`: at least one of
the normalised `Payer`/`Description` values is non-blank, and the designated
amount cell is non-null (its content is not inspected further). -/
def survivesRow (r : Row) : Bool :=
  !(blankStr (normCell r.payer) && blankStr (normCell r.description)) &&
    !(r.amount == ACell.anull)

/-- Row-survival predicate claimed by the spec (claim C2): some non-blank
text field and a numeric designated amount.  This definition follows the
spec's words and is compared against the code's `survivesRow`. -/
def specSurvivesRow (r : Row) : Bool :=
  (!(specBlankStr (normCell r.payer)) || !(specBlankStr (normCell r.description))) &&
    isNumericCell r.amount

/-- A record prepared for comparison by `prepare_comparison_data`: the amount
column renamed to `Amount` and the row tagged with its original index (the
pandas index label of the cleaned frame).  Amounts are numeric here, per the
data-model invariant of spec section 3. -/
structure CmpRow where
  idx : Nat
  payer : String
  description : String
  amount : ℚ
deriving DecidableEq

/-- The join key of `find_matches`: the `(Payer, Description, Amount)`
triple. -/
def keyOf (r : CmpRow) : String × String × ℚ := (r.payer, r.description, r.amount)

/-- Embedding of `find_matches` (`spendesk_rec.py` lines 216-241):
`pd.merge(..., on=['Payer', 'Description', 'Amount'], how='inner')`.  A
pandas inner join emits one output row for every left/right pair agreeing on
the key, ordered by left occurrence and, within one left row, by right
occurrence. -/
def find_matches (A B : List CmpRow) : List (CmpRow × CmpRow) :=
  A.flatMap (fun a => (B.filter (fun b => keyOf b == keyOf a)).map (fun b => (a, b)))

/-- Matched-pair count of the Matcher for one key (the quantity claim C1 is
about). -/
def matchCountForKey (A B : List CmpRow) (k : String × String × ℚ) : Nat :=
  ((find_matches A B).filter (fun m => keyOf m.1 == k)).length

/-- Occurrences of a key in a record set. -/
def countKey (l : List CmpRow) (k : String × String × ℚ) : Nat :=
  (l.filter (fun r => keyOf r == k)).length

/-- The removal step of `generate_outlier_report` (lines 248-256):
`df.drop(labels)` deletes every row whose index label occurs in the list;
repeated labels in the list have no further effect.  The subsequent
`dropna(how='all')` is the identity on cleaned rows (their text fields are
strings, never null) and is not represented. -/
def removeMatched (rows : List CmpRow) (removedIdxs : List Nat) : List CmpRow :=
  rows.filter (fun r => !(removedIdxs.contains r.idx))

/-- Unmatched Bookkeeping records after removal. -/
def outlierBk (A B : List CmpRow) : List CmpRow :=
  removeMatched A ((find_matches A B).map (fun m => m.1.idx))

/-- Unmatched Statement records after removal. -/
def outlierSt (A B : List CmpRow) : List CmpRow :=
  removeMatched B ((find_matches A B).map (fun m => m.2.idx))

/-- An unmatched Bookkeeping row as consumed by
`create_side_by_side_format`. -/
structure BRow where
  payer : String
  description : String
  amount : ℚ
deriving DecidableEq

/-- An unmatched Statement row as consumed by `create_side_by_side_format`;
`Credit` was never cleaned, so it may be missing (`none` plays the role of
`NaN`, which pandas `sum` skips). -/
structure SRow where
  payer : String
  description : String
  amount : ℚ
  credit : Option ℚ
deriving DecidableEq

/-- A cell of the side-by-side report: a string (descriptions, labels,
formatted totals, empty fillers), a number carried over from a record, or a
missing value (a `NaN` credit written through). -/
inductive RCell where
  | str : String → RCell
  | num : ℚ → RCell
  | na : RCell
deriving DecidableEq

/-- One row of the `Outliers` sheet, with the six columns built by
`create_side_by_side_format`. -/
structure RepRow where
  payer : String
  bkDesc : String
  bkAmt : RCell
  stDesc : String
  stAmt : RCell
  stCredit : RCell
deriving DecidableEq

/-- Lexicographic code-point comparison of character lists (the order Python
`sorted` uses on strings). -/
def strLeChars : List Char → List Char → Bool
  | [], _ => true
  | _ :: _, [] => false
  | a :: as, b :: bs =>
    if a.toNat < b.toNat then true
    else if b.toNat < a.toNat then false
    else strLeChars as bs

/-- String comparison used to sort payers. -/
def strLe (a b : String) : Bool := strLeChars a.data b.data

/-- The sort relation as a decidable proposition. -/
def strLeR (a b : String) : Prop := strLe a b = true

instance : DecidableRel strLeR := fun a b => inferInstanceAs (Decidable (strLe a b = true))

/-- The Bookkeeping rows of one payer, in order
(`outlier_bookkeeping[outlier_bookkeeping['Payer'] == payer]`). -/
def bkFor (p : String) (bk : List BRow) : List BRow := bk.filter (fun r => r.payer == p)

/-- The Statement rows of one payer, in order. -/
def stFor (p : String) (st : List SRow) : List SRow := st.filter (fun r => r.payer == p)

/-- Sum of the payer's unmatched Bookkeeping amounts
(`payer_bookkeeping['Amount'].sum()`, `0` when the slice is empty). -/
def bkSum (p : String) (bk : List BRow) : ℚ := ((bkFor p bk).map BRow.amount).sum

/-- Sum of the payer's unmatched Statement amounts. -/
def stSum (p : String) (st : List SRow) : ℚ := ((stFor p st).map SRow.amount).sum

/-- Sum of the payer's Statement credits; pandas `sum` skips missing
values. -/
def stCreditSum (p : String) (st : List SRow) : ℚ :=
  ((stFor p st).map (fun r => r.credit.getD 0)).sum

/-- The `i`-th data row of a payer block (lines 307-330): the payer name only
when `i = 0`, the `i`-th Bookkeeping row and `i`-th Statement row of the
payer when they exist, empty strings for the missing side. -/
def dataRowFor (p : String) (bs : List BRow) (ss : List SRow) (i : Nat) : RepRow :=
  { payer := if i == 0 then p else ""
    bkDesc := match bs.get? i with
      | some r => r.description
      | none => ""
    bkAmt := match bs.get? i with
      | some r => RCell.num r.amount
      | none => RCell.str ""
    stDesc := match ss.get? i with
      | some r => r.description
      | none => ""
    stAmt := match ss.get? i with
      | some r => RCell.num r.amount
      | none => RCell.str ""
    stCredit := match ss.get? i with
      | some r => match r.credit with
        | some q => RCell.num q
        | none => RCell.na
      | none => RCell.str "" }

/-- Round half to even at integer precision, the rounding Python's fixed
`.2f` formatting applies to the scaled value. -/
def rne (q : ℚ) : ℤ :=
  if q - ⌊q⌋ < 1 / 2 then ⌊q⌋
  else if 1 / 2 < q - ⌊q⌋ then ⌊q⌋ + 1
  else if 2 ∣ ⌊q⌋ then ⌊q⌋ else ⌊q⌋ + 1

/-- Digit character of a digit value (capped at `9`; callers only pass
values below ten). -/
def charOfDigit (d : Nat) : Char := Char.ofNat (48 + min d 9)

/-- Little-endian decimal digits of a natural number, with fuel for
structural recursion; `natDigitsRev` supplies enough fuel. -/
def natDigitsRevF : Nat → Nat → List Nat
  | 0, _ => []
  | _ + 1, 0 => []
  | f + 1, n + 1 => ((n + 1) % 10) :: natDigitsRevF f ((n + 1) / 10)

/-- Little-endian decimal digits of a natural number. -/
def natDigitsRev (n : Nat) : List Nat := natDigitsRevF n n

/-- Big-endian character rendering of a natural number. -/
def natToChars (n : Nat) : List Char :=
  if n == 0 then ['0'] else ((natDigitsRev n).map charOfDigit).reverse

/-- Rendering of `f'{t:.2f}'` on the exact value `q`: sign, integer part,
and exactly two fraction digits of the half-even-rounded value. -/
def fmt2dp (q : ℚ) : String :=
  let p := rne (100 * q)
  let sign : List Char := if p < 0 then ['-'] else []
  ⟨sign ++ natToChars (p.natAbs / 100) ++
    '.' :: [charOfDigit (p.natAbs % 100 / 10), charOfDigit (p.natAbs % 10)]⟩

/-- The currency text `f'£{t:.2f}'` of the total rows. -/
def fmtCurrency (q : ℚ) : String := ⟨'£' :: (fmt2dp q).data⟩

/-- A totals cell: blank when the sum is exactly zero, the formatted currency
text otherwise (lines 340-343). -/
def currencyCell (q : ℚ) : RCell :=
  if q == 0 then RCell.str "" else RCell.str (fmtCurrency q)

/-- Strip the currency formatting from a totals cell: remove the leading
`'£'` and read the decimal number back (claim C4's "after stripping currency
formatting").  This definition follows the claim's words; it is not part of
the scripts. -/
def stripCurrency (s : String) : Option ℚ :=
  match s.data with
  | '£' :: rest => parseRat ⟨rest⟩
  | _ => none

/-- The totals row of a payer block (lines 332-345). -/
def totalRowFor (p : String) (bk : List BRow) (st : List SRow) : RepRow :=
  { payer := ""
    bkDesc := "Total"
    bkAmt := currencyCell (bkSum p bk)
    stDesc := "Total"
    stAmt := currencyCell (stSum p st)
    stCredit := currencyCell (stCreditSum p st) }

/-- The spacer row inserted between payer blocks (lines 347-357). -/
def spacerRow : RepRow :=
  { payer := ""
    bkDesc := ""
    bkAmt := RCell.str ""
    stDesc := ""
    stAmt := RCell.str ""
    stCredit := RCell.str "" }

/-- One payer block: `max` data rows followed by the totals row. -/
def blockRows (p : String) (bk : List BRow) (st : List SRow) : List RepRow :=
  (List.range (max (bkFor p bk).length (stFor p st).length)).map
      (dataRowFor p (bkFor p bk) (stFor p st)) ++
    [totalRowFor p bk st]

/-- The payers appearing in either remaining set, one occurrence each
(the contents of the Python `set`; its iteration order is arbitrary and is
abstracted by the `order` parameter of `createSideBySideFrom`). -/
def payersOf (bk : List BRow) (st : List SRow) : List String :=
  ((bk.map BRow.payer) ++ (st.map SRow.payer)).dedup

/-- Embedding of `create_side_by_side_format` (lines 282-359), parametrised
by the enumeration order of the payer set: sort the payers, emit each block,
and append the spacer row after every payer other than the one equal to the
last of the sorted list (`payer != all_payers[-1]`). -/
def createSideBySideFrom (order : List String) (bk : List BRow) (st : List SRow) :
    List RepRow :=
  (List.insertionSort strLeR order).flatMap (fun p =>
    blockRows p bk st ++
      if (List.insertionSort strLeR order).getLast? = some p then [] else [spacerRow])

/-- `create_side_by_side_format` with the canonical enumeration of the payer
set. -/
def create_side_by_side_format (bk : List BRow) (st : List SRow) : List RepRow :=
  createSideBySideFrom (payersOf bk st) bk st

/-- Reference layout of claim C3: blocks joined with exactly one spacer row
between consecutive blocks and none after the last.  This definition follows
the claim's words and is compared against the embedded builder. -/
def joinBlocks : List (List RepRow) → List RepRow
  | [] => []
  | [b] => b
  | b :: bs => b ++ spacerRow :: joinBlocks bs

/-- Column resolution of `load_workbook_data` (lines 54-63): an exact header
match first, otherwise the first case-insensitive match. -/
def resolveCol (available : List String) (c : String) : Option String :=
  if available.contains c then some c
  else available.find? (fun col => lowerStr col == lowerStr c)

/-- The unmatched required columns (line 66). -/
def missingCols (available required : List String) : List String :=
  required.filter (fun c => (resolveCol available c).isNone)

/-- Column selection of `load_workbook_data` (lines 50-74): fail with the
list of missing required names, or return the `(canonical, original)` header
pairs selected in required-column order; all other columns are discarded. -/
def loadSelect (available required : List String) :
    Except (List String) (List (String × String)) :=
  if missingCols available required = [] then
    Except.ok (required.filterMap (fun c => (resolveCol available c).map (fun h => (c, h))))
  else Except.error (missingCols available required)

/-- The error taxonomy of spec section 7. -/
inductive Err where
  | fileNotFound : Err
  | missingColumns : Err
  | emptyAfterCleaning : Err
  | generic : Err
deriving DecidableEq

/-- The required logical columns of the Bookkeeping source (line 497). -/
def bookkeepingColumns : List String := ["Payer", "Description", "Signed Total Amount"]

/-- The required logical columns of the Statement source (line 498). -/
def statementColumns : List String := ["Payer", "Description", "Debit", "Credit"]

/-- A loaded workbook table: its header row, and its rows already projected
onto the logical schema (the projection itself is the renaming `loadSelect`
verifies; reading the sheet is external I/O). -/
structure FileTable where
  headers : List String
  rows : List Row

/-- Embedding of the reconciliation workflow `main` (lines 482-527) up to the
data that would be written: file validation, column resolution, cleaning with
the empty-result check, in the order the script performs them; every raised
error propagates out of `main` unhandled.  `writeOk` stands for the final
workbook write, whose failures `save_comprehensive_report` re-raises as a
generic processing error.  Matching and report construction never raise and
are total functions of the result. -/
def recRun (bkFile stFile : Option FileTable) (outDirOk writeOk : Bool) :
    Except Err (List CRow × List CRow) :=
  match bkFile with
  | none => Except.error Err.fileNotFound
  | some bkT =>
    match stFile with
    | none => Except.error Err.fileNotFound
    | some stT =>
      if !outDirOk then Except.error Err.fileNotFound
      else
        match loadSelect bkT.headers bookkeepingColumns with
        | Except.error _ => Except.error Err.missingColumns
        | Except.ok _ =>
          if (clean_data true bkT.rows).isEmpty then Except.error Err.emptyAfterCleaning
          else
            match loadSelect stT.headers statementColumns with
            | Except.error _ => Except.error Err.missingColumns
            | Except.ok _ =>
              if (clean_data false stT.rows).isEmpty then Except.error Err.emptyAfterCleaning
              else if !writeOk then Except.error Err.generic
              else Except.ok (clean_data true bkT.rows, clean_data false stT.rows)

/-- Does the character list start with the pattern? -/
def headMatches : List Char → List Char → Bool
  | _, [] => true
  | [], _ :: _ => false
  | c :: t, d :: u => c == d && headMatches t u

/-- Does the pattern occur anywhere in the character list? -/
def hasSubList : List Char → List Char → Bool
  | [], pat => pat.isEmpty
  | c :: t, pat => headMatches (c :: t) pat || hasSubList t pat

/-- Does the lowercased haystack contain the needle (Python's
`needle in col.lower()`)? -/
def containsSub (hay needle : String) : Bool :=
  hasSubList (lowerStr hay).data needle.data

/-- First column whose lowercased name contains the needle (the
`next((col for col in df.columns if ... in col.lower()), None)` pattern of
`formatting.py`). -/
def findColLike (cols : List String) (needle : String) : Option String :=
  cols.find? (fun c => containsSub c needle)

/-- An employee reference row after header normalisation (`spendesk names`
renamed to `Payer`); the department may be missing. -/
structure EmpRow where
  payer : String
  dept : Option String
deriving DecidableEq

/-- The reference workbook: `Employee` and `Account` sheets, each possibly
absent (reading an absent sheet raises inside the enrichment functions).
The `Account` sheet's lookup content is not consumed by any claim and is
reduced to its presence. -/
structure RefWb where
  employee : Option (List EmpRow)
  account : Option Unit

/-- A row of the expense CSV: the `Payer` value and the cell of the
`signed total amount`-like column (when such a column exists). -/
structure CsvRow where
  payer : String
  signedTotal : ACell
deriving DecidableEq

/-- A parsed expense CSV: its header list and rows. -/
structure CsvTable where
  cols : List String
  rows : List CsvRow

/-- The Location rule of `enrich_and_save_excel` (line 44):
`"Central" if pd.to_numeric(x, errors='coerce') < 250 else ""`; a `NaN`
comparison is false in Python, so an unparseable value yields the empty
string. -/
def locationOf (c : ACell) : String :=
  match toNumericCell c with
  | some q => if q < 250 then "Central" else ""
  | none => ""

/-- An enriched expense row: `Department` and `Location` columns inserted in
front of the CSV data. -/
structure EnrichedRow where
  department : Option String
  location : String
  payer : String
  signedTotal : ACell
deriving DecidableEq

/-- Department/Location enrichment of one row (lines 35-46): a left join on
`Payer` against the employee sheet (first matching reference row), and the
Location rule, applied only when a `signed total amount`-like column
exists. -/
def enrichRow (emp : List EmpRow) (hasAmountCol : Bool) (r : CsvRow) : EnrichedRow :=
  { department := (emp.find? (fun e => e.payer == r.payer)).bind EmpRow.dept
    location := if hasAmountCol then locationOf r.signedTotal else ""
    payer := r.payer
    signedTotal := r.signedTotal }

/-- What the enrichment workflow leaves behind in the output workbook: the
`Data` sheet and the `Summary` sheet, either of which may be absent because
a swallowed error prevented its writing. -/
structure EnrichOutcome where
  dataSheet : Option (List EnrichedRow)
  summarySheet : Option Unit
deriving DecidableEq

/-- Embedding of `generate_summary_only` (`formatting.py` lines 57-132): the
function catches every exception itself, so it always returns; it produces a
summary only when the `Account` sheet can be read and all four required
column patterns are found in the `Data` sheet, returning early (summary not
produced) otherwise.  The aggregation content of the summary is not consumed
by any claim and is reduced to its production. -/
def generate_summary_only (dataCols : List String) (account : Option Unit) : Option Unit :=
  match account with
  | none => none
  | some _ =>
    if ((findColLike dataCols "expense account").isSome &&
        (findColLike dataCols "net amount").isSome &&
        (findColLike dataCols "tax amount").isSome &&
        (findColLike dataCols "signed total amount").isSome) then
      some ()
    else none

/-- Header list of the written `Data` sheet: `Department` and `Location`
inserted in front of the CSV columns (lines 37 and 44). -/
def dataSheetCols (csvCols : List String) : List String :=
  "Department" :: "Location" :: csvCols

/-- Embedding of `enrich_and_save_excel` (lines 24-55): read the CSV and the
two reference sheets (failure of either read is caught by the function's own
handler, leaving nothing written), write the `Data` sheet, then call the
summary stage.  The function never propagates an exception. -/
def enrich_and_save_excel (csv : Option CsvTable) (ref : Option RefWb) : EnrichOutcome :=
  match csv, ref with
  | some t, some wb =>
    match wb.employee, wb.account with
    | some emp, some acct =>
      let hasAmountCol := (findColLike t.cols "signed total amount").isSome
      let dataRows := t.rows.map (enrichRow emp hasAmountCol)
      { dataSheet := some dataRows
        summarySheet := generate_summary_only (dataSheetCols t.cols) (some acct) }
    | _, _ => { dataSheet := none, summarySheet := none }
  | _, _ => { dataSheet := none, summarySheet := none }

/-- Embedding of the enrichment workflow (`formatting.py` `main`, option 1):
`clean_csv_file` (which catches a missing input file and returns without
writing the temporary file), then `enrich_and_save_excel`, then temporary
file removal (its failure is also caught).  The `Except` result records what
propagates out of `main`: every stage swallows its exceptions, so the
workflow always completes normally, whatever was or was not written. -/
def enrichWorkflow (csv : Option CsvTable) (ref : Option RefWb) : Except Err EnrichOutcome :=
  Except.ok (enrich_and_save_excel csv ref)

/-- A row with a valid payer and a non-numeric text amount, refuting claim
C2 as stated. -/
def textAmountRow : Row := ⟨some "x", none, ACell.astr "abc", ACell.anull⟩
/-- Two Bookkeeping rows with the identical key of the spec's duplicate
scenario. -/
def dupBk : List CmpRow := [⟨0, "Acme", "Fee", 100⟩, ⟨1, "Acme", "Fee", 100⟩]
/-- One Statement row with that same key. -/
def oneSt : List CmpRow := [⟨2, "Acme", "Fee", 100⟩]
/-- The duplicated key. -/
def acmeKey : String × String × ℚ := ("Acme", "Fee", 100)

/-- The sorted payer list the report iterates over (`sorted(all_payers)` at
line 293). -/
def sortedPayers (bk : List BRow) (st : List SRow) : List String :=
  List.insertionSort strLeR (payersOf bk st)

/-- One unmatched Bookkeeping row, used to instantiate the layout claims. -/
def bkW3 : List BRow := [⟨"A", "b1", 1⟩]

/-- Two unmatched Statement rows over two payers, used to instantiate the
layout claims. -/
def stW3 : List SRow := [⟨"A", "s1", 2, none⟩, ⟨"B", "s2", 3, some 4⟩]

/-- A Bookkeeping outlier whose amount is below one penny, refuting claim
C4's exact-equality reading. -/
def subPennyBk : List BRow := [⟨"A", "x", 1/250⟩]

/-- Penny-exact witness data for the totals claim: one Bookkeeping row. -/
def bkW4 : List BRow := [⟨"A", "d", 3/2⟩]

/-- Penny-exact witness data for the totals claim: one Statement row with a
credit. -/
def stW4 : List SRow := [⟨"A", "e", 2, some (5/4)⟩]

/-- Headers exercising both resolution passes of the loader: one
case-insensitive match, one exact match, one exact match, and an unrelated
column to be discarded. -/
def headersW : List String := ["payer", "Description", "Signed Total Amount", "Extra"]

/-- A loadable Bookkeeping file. -/
def goodBkTable : FileTable :=
  ⟨bookkeepingColumns, [⟨some "p", some "d", ACell.anum 1, ACell.anull⟩]⟩

/-- A loadable Statement file. -/
def goodStTable : FileTable :=
  ⟨statementColumns, [⟨some "p", some "d", ACell.anum 1, ACell.anum 0⟩]⟩

/-- A reference workbook with both sheets present (and an empty employee
list). -/
def refWbW : RefWb := ⟨some [], some ()⟩

/-- An expense CSV whose `Data` sheet lacks the summary stage's required
columns. -/
def csvW : CsvTable := ⟨["Payer", "signed total amount"], [⟨"p", ACell.anum 10⟩]⟩

/-- A `dropWhile` result is empty or starts with a character failing the
predicate. -/
theorem dropWhile_head_not (p : Char → Bool) :
    ∀ l : List Char, l.dropWhile p = [] ∨
      ∃ c t, l.dropWhile p = c :: t ∧ p c = false := by
  intro l
  induction l with
  | nil => exact Or.inl rfl
  | cons c t ih =>
    by_cases h : p c = true
    · simpa [List.dropWhile_cons, h] using ih
    · exact Or.inr ⟨c, t, by simp [List.dropWhile_cons, h], by simpa using h⟩

/-- `collapseAux false` keeps a leading non-whitespace character. -/
theorem collapseAux_cons_not_ws {c : Char} (t : List Char) (h : isWs c = false) :
    collapseAux false (c :: t) = c :: collapseAux false t := by
  simp [collapseAux, h]

/-- A normalised string is empty or starts with a non-whitespace
character. -/
theorem normStr_empty_or_head (s : String) :
    normStr s = "" ∨ ∃ c t, (normStr s).data = c :: t ∧ isWs c = false := by
  have hrepr : (normStr s).data = collapseAux false (stripChars s.data) := rfl
  rcases dropWhile_head_not isWs ((s.data.reverse.dropWhile isWs).reverse) with h | ⟨c, t, h, hc⟩
  · left
    have hnil : stripChars s.data = [] := h
    have hd : (normStr s).data = [] := by rw [hrepr, hnil]; rfl
    cases hmk : normStr s with
    | mk d =>
      rw [hmk] at hd
      simp only at hd
      rw [hd]
  · right
    have hs : stripChars s.data = c :: t := h
    exact ⟨c, collapseAux false t, by rw [hrepr, hs, collapseAux_cons_not_ws t hc], hc⟩

/-- A whitespace-only normalised string is empty. -/
theorem normStr_of_onlyWs {s : String} (h : onlyWs (normStr s) = true) :
    normStr s = "" := by
  rcases normStr_empty_or_head s with he | ⟨c, t, hd, hc⟩
  · exact he
  · exfalso
    have := (List.all_eq_true.mp h) c (by rw [hd]; exact List.mem_cons_self c t)
    rw [this] at hc
    exact Bool.true_eq_false.mp hc

/-- Claim C5 (amended): after normalisation, `clean_data` classifies a
`Payer`/`Description` value as blank if and only if it is empty, lowercases
to `"nan"`, or is exactly `"None"`.  The case-insensitive `"none"` test the
spec describes is not performed: only the exact spelling `"None"` is blank.
The whitespace-only case of the code collapses into emptiness because
normalisation strips outer whitespace. -/
theorem claim_C5_blank_classification (raw : Option String) :
    blankStr (normCell raw) = true ↔
      (normCell raw = "" ∨ lowerStr (normCell raw) = "nan" ∨ normCell raw = "None") := by
  unfold blankStr
  simp only [Bool.or_eq_true, beq_iff_eq]
  constructor
  · rintro (((((h | h) | h) | h) | h) | h)
    · exact Or.inr (Or.inl (by rw [h]; rfl))
    · exact Or.inr (Or.inl (by rw [h]; rfl))
    · exact Or.inr (Or.inr h)
    · exact Or.inl h
    · exact Or.inr (Or.inl h)
    · exact Or.inl (normStr_of_onlyWs h)
  · rintro (h | h | h)
    · exact Or.inl (Or.inl (Or.inr h))
    · exact Or.inl (Or.inr h)
    · exact Or.inl (Or.inl (Or.inl (Or.inr h)))

/-- Counterexample to claim C5 as stated: the raw value `"none"` is blank by
the spec's case-insensitive rule but is not classified blank by the code,
which compares `"None"` exactly. -/
theorem claim_C5_counterexample :
    blankStr (normCell (some "none")) = false ∧
      specBlankStr (normCell (some "none")) = true := by
  decide

/-- Claim C2 (amended): a row survives `clean_data` exactly when at least one
of its normalised `Payer`/`Description` values is non-blank and its
designated amount cell is non-null; survivors are the normalised images of
exactly those rows, in order.  The amount's content is not inspected:
non-null, non-numeric amount values are retained, contrary to the claim's
"absent or non-numeric are dropped". -/
theorem claim_C2_cleaning_survival (isBk : Bool) (rows : List Row) :
    clean_data isBk rows = (rows.filter survivesRow).map normRow := by
  unfold clean_data
  rw [List.filter_filter, List.filter_map, List.filter_filter]
  refine congrArg (List.map normRow) (List.filter_congr ?_)
  intro r _
  by_cases h : allNullRow isBk r = true
  · have hnull : r.amount = ACell.anull := by
      have := h
      unfold allNullRow at this
      simp only [Bool.and_eq_true, beq_iff_eq] at this
      exact this.1.2
    simp [survivesRow, Function.comp, normRow, h, hnull]
  · simp only [Bool.not_eq_true] at h
    simp [survivesRow, Function.comp, normRow, h, Bool.and_comm]

/-- Counterexample to claim C2 as stated: a row whose designated amount is
the non-numeric text `"abc"` survives cleaning (only null amounts are
dropped), while the claim requires it to be dropped. -/
theorem claim_C2_counterexample :
    clean_data true [textAmountRow] = [⟨"x", "nan", ACell.astr "abc", ACell.anull⟩] ∧
      specSurvivesRow textAmountRow = false := by
  decide

/-- Claim C1 evaluated at the spec's own duplicate scenario: the claim (and
spec sections 4.3 and 8) requires `min(2, 1) = 1` matched pair for the key
and one unmatched Bookkeeping row, but the inner merge yields the cartesian
product — two matched pairs — and the removal step then deletes both
Bookkeeping rows, leaving no outliers at all on either side. -/
theorem claim_C1_duplicate_matching :
    matchCountForKey dupBk oneSt acmeKey = 2 ∧
      min (countKey dupBk acmeKey) (countKey oneSt acmeKey) = 1 ∧
      outlierBk dupBk oneSt = [] ∧
      outlierSt dupBk oneSt = [] := by
  decide

/-- Claim C6: whenever a key occurs in both cleaned record sets, the removal
step deletes every row bearing that key from both sides, so no such row
survives into the outlier report's inputs.  Each row is removed by a single
label-based filter, so repeated positions in the match set have no further
effect. -/
theorem claim_C6_complete_removal (A B : List CmpRow) (k : String × String × ℚ)
    (hA : ∃ a ∈ A, keyOf a = k) (hB : ∃ b ∈ B, keyOf b = k) :
    (outlierBk A B).filter (fun r => keyOf r == k) = [] ∧
      (outlierSt A B).filter (fun r => keyOf r == k) = [] := by
  obtain ⟨a0, ha0, hka⟩ := hA
  obtain ⟨b0, hb0, hkb⟩ := hB
  constructor
  · rw [List.filter_eq_nil_iff]
    intro r hr hkr
    have hkr' : keyOf r = k := by simpa using hkr
    unfold outlierBk removeMatched at hr
    rw [List.mem_filter] at hr
    obtain ⟨hrA, hnot⟩ := hr
    have hmem : (r, b0) ∈ find_matches A B := by
      unfold find_matches
      rw [List.mem_flatMap]
      refine ⟨r, hrA, ?_⟩
      rw [List.mem_map]
      refine ⟨b0, ?_, rfl⟩
      rw [List.mem_filter]
      exact ⟨hb0, by simp [hkb, hkr']⟩
    have hidx : r.idx ∈ (find_matches A B).map (fun m => m.1.idx) :=
      List.mem_map.mpr ⟨(r, b0), hmem, rfl⟩
    simp [hidx] at hnot
  · rw [List.filter_eq_nil_iff]
    intro r hr hkr
    have hkr' : keyOf r = k := by simpa using hkr
    unfold outlierSt removeMatched at hr
    rw [List.mem_filter] at hr
    obtain ⟨hrB, hnot⟩ := hr
    have hmem : (a0, r) ∈ find_matches A B := by
      unfold find_matches
      rw [List.mem_flatMap]
      refine ⟨a0, ha0, ?_⟩
      rw [List.mem_map]
      refine ⟨r, ?_, rfl⟩
      rw [List.mem_filter]
      exact ⟨hrB, by simp [hka, hkr']⟩
    have hidx : r.idx ∈ (find_matches A B).map (fun m => m.2.idx) :=
      List.mem_map.mpr ⟨(a0, r), hmem, rfl⟩
    simp [hidx] at hnot

/-- Witness for claim C6 at a concrete shared key: a key present on both
sides leaves no trace in either outlier set. -/
theorem claim_C6_witness :
    (outlierBk [⟨0, "P", "d", 5⟩] [⟨7, "P", "d", 5⟩]).filter
        (fun r => keyOf r == ("P", "d", (5 : ℚ))) = [] ∧
      (outlierSt [⟨0, "P", "d", 5⟩] [⟨7, "P", "d", 5⟩]).filter
        (fun r => keyOf r == ("P", "d", (5 : ℚ))) = [] :=
  claim_C6_complete_removal [⟨0, "P", "d", 5⟩] [⟨7, "P", "d", 5⟩] ("P", "d", 5)
    ⟨⟨0, "P", "d", 5⟩, by decide, rfl⟩ ⟨⟨7, "P", "d", 5⟩, by decide, rfl⟩

/-- Characters with equal code points are equal. -/
theorem charToNat_inj {c d : Char} (h : c.toNat = d.toNat) : c = d := by
  apply Char.ext
  cases hc : c.val with
  | mk bc =>
    cases hd : d.val with
    | mk bd =>
      unfold Char.toNat at h
      rw [hc, hd] at h
      simp only [UInt32.toNat] at h
      congr 1
      exact BitVec.eq_of_toNat_eq h

/-- The code-point comparison is total. -/
theorem strLeChars_total : ∀ a b : List Char, strLeChars a b = true ∨ strLeChars b a = true := by
  intro a
  induction a with
  | nil => intro b; left; rfl
  | cons x xs ih =>
    intro b
    cases b with
    | nil => right; rfl
    | cons y ys =>
      by_cases h1 : x.toNat < y.toNat
      · left; simp [strLeChars, h1]
      · by_cases h2 : y.toNat < x.toNat
        · right; simp [strLeChars, h2]
        · rcases ih ys with h | h
          · left; simp [strLeChars, h1, h2, h]
          · right; simp [strLeChars, h1, h2, h]

/-- The code-point comparison is transitive. -/
theorem strLeChars_trans :
    ∀ a b c : List Char, strLeChars a b = true → strLeChars b c = true →
      strLeChars a c = true := by
  intro a
  induction a with
  | nil => intro b c _ _; rfl
  | cons x xs ih =>
    intro b c hab hbc
    cases b with
    | nil => simp [strLeChars] at hab
    | cons y ys =>
      cases c with
      | nil => simp [strLeChars] at hbc
      | cons z zs =>
        by_cases hxy : x.toNat < y.toNat
        · by_cases hyz : y.toNat < z.toNat
          · have hxz : x.toNat < z.toNat := Nat.lt_trans hxy hyz
            simp [strLeChars, hxz]
          · by_cases hzy : z.toNat < y.toNat
            · simp [strLeChars, hyz, hzy] at hbc
            · have heq : y.toNat = z.toNat :=
                Nat.le_antisymm (Nat.le_of_not_lt hzy) (Nat.le_of_not_lt hyz)
              have hxz : x.toNat < z.toNat := heq ▸ hxy
              simp [strLeChars, hxz]
        · by_cases hyx : y.toNat < x.toNat
          · simp [strLeChars, hxy, hyx] at hab
          · have hxyEq : x.toNat = y.toNat :=
              Nat.le_antisymm (Nat.le_of_not_lt hyx) (Nat.le_of_not_lt hxy)
            simp only [strLeChars, if_neg hxy, if_neg hyx] at hab
            by_cases hyz : y.toNat < z.toNat
            · have hxz : x.toNat < z.toNat := hxyEq ▸ hyz
              simp [strLeChars, hxz]
            · by_cases hzy : z.toNat < y.toNat
              · simp [strLeChars, hyz, hzy] at hbc
              · have hyzEq : y.toNat = z.toNat :=
                  Nat.le_antisymm (Nat.le_of_not_lt hzy) (Nat.le_of_not_lt hyz)
                simp only [strLeChars, if_neg hyz, if_neg hzy] at hbc
                have hxz : ¬ x.toNat < z.toNat := by omega
                have hzx : ¬ z.toNat < x.toNat := by omega
                simp [strLeChars, hxz, hzx, ih ys zs hab hbc]

/-- The code-point comparison is antisymmetric. -/
theorem strLeChars_antisymm :
    ∀ a b : List Char, strLeChars a b = true → strLeChars b a = true → a = b := by
  intro a
  induction a with
  | nil =>
    intro b _ hba
    cases b with
    | nil => rfl
    | cons y ys => simp [strLeChars] at hba
  | cons x xs ih =>
    intro b hab hba
    cases b with
    | nil => simp [strLeChars] at hab
    | cons y ys =>
      by_cases hxy : x.toNat < y.toNat
      · simp [strLeChars, hxy, Nat.lt_asymm hxy, Nat.ne_of_lt hxy] at hba
      · by_cases hyx : y.toNat < x.toNat
        · simp [strLeChars, hxy, hyx] at hab
        · have hxyEq : x.toNat = y.toNat :=
            Nat.le_antisymm (Nat.le_of_not_lt hyx) (Nat.le_of_not_lt hxy)
          simp only [strLeChars, if_neg hxy, if_neg hyx] at hab
          simp only [strLeChars, if_neg hyx, if_neg hxy] at hba
          rw [charToNat_inj hxyEq, ih ys hab hba]

/-- Totality of the payer comparison. -/
theorem strLe_total (a b : String) : strLeR a b ∨ strLeR b a :=
  strLeChars_total a.data b.data

/-- Transitivity of the payer comparison. -/
theorem strLe_trans {a b c : String} (hab : strLeR a b) (hbc : strLeR b c) : strLeR a c :=
  strLeChars_trans a.data b.data c.data hab hbc

/-- Antisymmetry of the payer comparison. -/
theorem strLe_antisymm {a b : String} (hab : strLeR a b) (hba : strLeR b a) : a = b := by
  have hd : a.data = b.data := strLeChars_antisymm a.data b.data hab hba
  cases a with
  | mk da =>
    cases b with
    | mk db => simp only at hd; rw [hd]

/-- Claim C10: the Outlier Report Builder is deterministic; any two
enumeration orders of the payer set (which a Python `set` does not fix)
produce the identical ordered row sequence, because the builder sorts the
payers before emitting blocks. -/
theorem claim_C10_determinism (bk : List BRow) (st : List SRow) (o₁ o₂ : List String)
    (h : o₁.Perm o₂) :
    createSideBySideFrom o₁ bk st = createSideBySideFrom o₂ bk st := by
  haveI : IsTotal String strLeR := ⟨strLe_total⟩
  haveI : IsTrans String strLeR := ⟨fun _ _ _ => strLe_trans⟩
  haveI : IsAntisymm String strLeR := ⟨fun _ _ => strLe_antisymm⟩
  have hs : List.insertionSort strLeR o₁ = List.insertionSort strLeR o₂ :=
    List.eq_of_perm_of_sorted
      ((List.perm_insertionSort strLeR o₁).trans
        (h.trans (List.perm_insertionSort strLeR o₂).symm))
      (List.sorted_insertionSort strLeR o₁)
      (List.sorted_insertionSort strLeR o₂)
  unfold createSideBySideFrom
  rw [hs]

/-- Witness for claim C10: the two enumeration orders of the payer pair
produce the same report on concrete data. -/
theorem claim_C10_witness :
    createSideBySideFrom ["B", "A"] bkW3 stW3 = createSideBySideFrom ["A", "B"] bkW3 stW3 :=
  claim_C10_determinism bkW3 stW3 ["B", "A"] ["A", "B"] (List.Perm.swap "A" "B" [])

/-- `flatMap` only depends on the function's values on members. -/
theorem flatMap_congr_mem {α β : Type} {f g : α → List β} :
    ∀ l : List α, (∀ a ∈ l, f a = g a) → l.flatMap f = l.flatMap g := by
  intro l
  induction l with
  | nil => intro _; rfl
  | cons a t ih =>
    intro h
    rw [List.flatMap_cons, List.flatMap_cons, h a (List.mem_cons_self a t),
      ih (fun x hx => h x (List.mem_cons_of_mem a hx))]

/-- On a duplicate-free payer list, emitting each block followed by a spacer
row unless the payer equals the list's last element joins the blocks with
exactly one spacer between consecutive blocks and none at the end. -/
theorem flatMap_spacer_eq_joinBlocks (f : String → List RepRow) :
    ∀ l : List String, l.Nodup →
      (l.flatMap (fun p => f p ++ if l.getLast? = some p then [] else [spacerRow])) =
        joinBlocks (l.map f) := by
  intro l
  induction l with
  | nil => intro _; rfl
  | cons a t ih =>
    intro hnd
    cases t with
    | nil => simp [joinBlocks]
    | cons b t' =>
      have hlast : (a :: b :: t').getLast? = (b :: t').getLast? := List.getLast?_cons_cons
      have hnotmem : a ∉ b :: t' := (List.nodup_cons.mp hnd).1
      have hne : (b :: t').getLast? ≠ some a := by
        intro hcon
        obtain ⟨ys, hys⟩ := List.getLast?_eq_some_iff.mp hcon
        exact hnotmem (hys ▸ List.mem_append_right ys (List.mem_singleton.mpr rfl))
      rw [List.flatMap_cons]
      have hinner :
          (b :: t').flatMap
              (fun p => f p ++ if (a :: b :: t').getLast? = some p then [] else [spacerRow]) =
            (b :: t').flatMap
              (fun p => f p ++ if (b :: t').getLast? = some p then [] else [spacerRow]) :=
        flatMap_congr_mem (b :: t') (fun p _ => by rw [hlast])
      rw [hinner, ih (List.nodup_cons.mp hnd).2, hlast, if_neg hne]
      simp [joinBlocks]

/-- The sorted payer list has no duplicates: it permutes the deduplicated
payer set. -/
theorem sortedPayers_nodup (bk : List BRow) (st : List SRow) : (sortedPayers bk st).Nodup :=
  (List.perm_insertionSort strLeR (payersOf bk st)).symm.nodup
    (List.nodup_dedup ((bk.map BRow.payer) ++ (st.map SRow.payer)))

/-- The sorted payer list is ascending for the code-point comparison. -/
theorem sortedPayers_sorted (bk : List BRow) (st : List SRow) :
    List.Pairwise strLeR (sortedPayers bk st) := by
  haveI : IsTotal String strLeR := ⟨strLe_total⟩
  haveI : IsTrans String strLeR := ⟨fun _ _ _ => strLe_trans⟩
  exact List.sorted_insertionSort strLeR (payersOf bk st)

/-- Claim C3: the outlier report lists the payers of the two remaining sets
in strictly ascending lexicographic order; the whole report is those payers'
blocks joined by single spacer rows with none after the last block; each
block is `max` data rows followed by its totals row; the payer name appears
only on a block's first row; and each data row pairs the payer's rows
position by position, with empty cells on an exhausted side. -/
theorem claim_C3_report_grouping (bk : List BRow) (st : List SRow) :
    List.Pairwise (fun a b => strLeR a b ∧ a ≠ b) (sortedPayers bk st) ∧
    (∀ q, q ∈ sortedPayers bk st ↔ (∃ r ∈ bk, r.payer = q) ∨ (∃ r ∈ st, r.payer = q)) ∧
    create_side_by_side_format bk st =
      joinBlocks ((sortedPayers bk st).map (fun p => blockRows p bk st)) ∧
    (∀ p, blockRows p bk st =
      (List.range (max (bkFor p bk).length (stFor p st).length)).map
        (dataRowFor p (bkFor p bk) (stFor p st)) ++ [totalRowFor p bk st]) ∧
    (∀ p, (dataRowFor p (bkFor p bk) (stFor p st) 0).payer = p) ∧
    (∀ p i, i ≠ 0 → (dataRowFor p (bkFor p bk) (stFor p st) i).payer = "") ∧
    (∀ p i r, (bkFor p bk).get? i = some r →
      (dataRowFor p (bkFor p bk) (stFor p st) i).bkDesc = r.description ∧
        (dataRowFor p (bkFor p bk) (stFor p st) i).bkAmt = RCell.num r.amount) ∧
    (∀ p i, (bkFor p bk).get? i = none →
      (dataRowFor p (bkFor p bk) (stFor p st) i).bkDesc = "" ∧
        (dataRowFor p (bkFor p bk) (stFor p st) i).bkAmt = RCell.str "") ∧
    (∀ p i r, (stFor p st).get? i = some r →
      (dataRowFor p (bkFor p bk) (stFor p st) i).stDesc = r.description ∧
        (dataRowFor p (bkFor p bk) (stFor p st) i).stAmt = RCell.num r.amount) ∧
    (∀ p i r q, (stFor p st).get? i = some r → r.credit = some q →
      (dataRowFor p (bkFor p bk) (stFor p st) i).stCredit = RCell.num q) ∧
    (∀ p i r, (stFor p st).get? i = some r → r.credit = none →
      (dataRowFor p (bkFor p bk) (stFor p st) i).stCredit = RCell.na) ∧
    (∀ p i, (stFor p st).get? i = none →
      (dataRowFor p (bkFor p bk) (stFor p st) i).stDesc = "" ∧
        (dataRowFor p (bkFor p bk) (stFor p st) i).stAmt = RCell.str "" ∧
        (dataRowFor p (bkFor p bk) (stFor p st) i).stCredit = RCell.str "") := by
  refine ⟨?_, ?_, ?_, ?_, ?_, ?_, ?_, ?_, ?_, ?_, ?_, ?_⟩
  · exact (sortedPayers_sorted bk st).and (sortedPayers_nodup bk st)
  · intro q
    simp only [sortedPayers, List.mem_insertionSort, payersOf, List.mem_dedup,
      List.mem_append, List.mem_map]
  · exact flatMap_spacer_eq_joinBlocks _ (sortedPayers bk st) (sortedPayers_nodup bk st)
  · intro p; rfl
  · intro p; rfl
  · intro p i hi
    have h0 : (i == 0) = false := by simpa using hi
    simp [dataRowFor, h0]
  · intro p i r h
    rw [List.get?_eq_getElem?] at h
    constructor <;> simp [dataRowFor, h]
  · intro p i h
    rw [List.get?_eq_getElem?] at h
    constructor <;> simp [dataRowFor, h]
  · intro p i r h
    rw [List.get?_eq_getElem?] at h
    constructor <;> simp [dataRowFor, h]
  · intro p i r q h hq
    rw [List.get?_eq_getElem?] at h
    simp [dataRowFor, h, hq]
  · intro p i r h hq
    rw [List.get?_eq_getElem?] at h
    simp [dataRowFor, h, hq]
  · intro p i h
    rw [List.get?_eq_getElem?] at h
    refine ⟨?_, ?_, ?_⟩ <;> simp [dataRowFor, h]

/-- Witness for claim C3 on concrete data: in payer `A`'s block the second
data row carries no payer name, and the first data row pairs the first
Bookkeeping row of `A` with its description and amount. -/
theorem claim_C3_witness :
    (dataRowFor "A" (bkFor "A" bkW3) (stFor "A" stW3) 1).payer = "" ∧
      (dataRowFor "A" (bkFor "A" bkW3) (stFor "A" stW3) 0).bkDesc = "b1" ∧
        (dataRowFor "A" (bkFor "A" bkW3) (stFor "A" stW3) 0).bkAmt = RCell.num 1 :=
  ⟨(claim_C3_report_grouping bkW3 stW3).2.2.2.2.2.1 "A" 1 (by decide),
    ((claim_C3_report_grouping bkW3 stW3).2.2.2.2.2.2.1 "A" 0 ⟨"A", "b1", 1⟩ (by decide)).1,
    ((claim_C3_report_grouping bkW3 stW3).2.2.2.2.2.2.1 "A" 0 ⟨"A", "b1", 1⟩ (by decide)).2⟩

/-- A digit character is not whitespace, not a dot, not a sign, and reads
back as a digit. -/
theorem charOfDigit_props (d : Nat) :
    isWs (charOfDigit d) = false ∧ (charOfDigit d == '.') = false ∧
      (charOfDigit d == '-') = false ∧ (charOfDigit d == '+') = false ∧
      (digitVal (charOfDigit d)).isSome = true := by
  unfold charOfDigit
  have hm : min d 9 ≤ 9 := Nat.min_le_right d 9
  revert hm
  generalize min d 9 = m
  intro hm
  interval_cases m <;> exact ⟨rfl, rfl, rfl, rfl, rfl⟩

/-- A digit value below ten reads back from its character. -/
theorem digitVal_charOfDigit {d : Nat} (hd : d < 10) : digitVal (charOfDigit d) = some d := by
  unfold charOfDigit
  rw [Nat.min_eq_left (by omega)]
  interval_cases d <;> rfl

/-- The rendering of a natural number is never empty. -/
theorem natToChars_ne_nil (n : Nat) : natToChars n ≠ [] := by
  unfold natToChars
  by_cases h : (n == 0) = true
  · simp [h]
  · rw [if_neg h]
    have hn : n ≠ 0 := by simpa using h
    cases n with
    | zero => exact absurd rfl hn
    | succ m =>
      have hstep : natDigitsRevF (m + 1) (m + 1) =
          ((m + 1) % 10) :: natDigitsRevF m ((m + 1) / 10) := rfl
      unfold natDigitsRev
      rw [hstep]
      simp

/-- Every character of a rendered natural number is a harmless digit. -/
theorem natToChars_all (n : Nat) :
    ∀ c ∈ natToChars n, isWs c = false ∧ (c == '.') = false ∧
      (c == '-') = false ∧ (c == '+') = false ∧ (digitVal c).isSome = true := by
  intro c hc
  unfold natToChars at hc
  by_cases h : (n == 0) = true
  · rw [if_pos h] at hc
    have : c = '0' := by simpa using hc
    subst this
    exact ⟨rfl, rfl, rfl, rfl, rfl⟩
  · rw [if_neg h, List.mem_reverse] at hc
    obtain ⟨d, _, hd⟩ := List.mem_map.mp hc
    subst hd
    exact charOfDigit_props d

/-- Appending one digit character multiplies the read value by ten. -/
theorem valBE_append (l : List Char) (c : Char) :
    valBE (l ++ [c]) = 10 * valBE l + (digitVal c).getD 0 := by
  unfold valBE
  rw [List.foldl_append]
  rfl

/-- The digit rendering round-trips through the big-endian reader. -/
theorem valBE_digits : ∀ f n : Nat, n ≤ f →
    valBE (((natDigitsRevF f n).map charOfDigit).reverse) = n := by
  intro f
  induction f with
  | zero =>
    intro n hn
    interval_cases n
    rfl
  | succ f ih =>
    intro n hn
    cases n with
    | zero => rfl
    | succ m =>
      have hstep : natDigitsRevF (f + 1) (m + 1) =
          ((m + 1) % 10) :: natDigitsRevF f ((m + 1) / 10) := rfl
      rw [hstep, List.map_cons, List.reverse_cons, valBE_append]
      have hdiv : (m + 1) / 10 ≤ f := by
        have h1 : (m + 1) / 10 < m + 1 := Nat.div_lt_self (Nat.succ_pos m) (by omega)
        omega
      rw [ih ((m + 1) / 10) hdiv, digitVal_charOfDigit (Nat.mod_lt (m + 1) (by omega))]
      simp only [Option.getD_some]
      omega

/-- The rendering of any natural number reads back to itself. -/
theorem valBE_natToChars (n : Nat) : valBE (natToChars n) = n := by
  unfold natToChars
  by_cases h : (n == 0) = true
  · have : n = 0 := by simpa using h
    subst this
    rfl
  · rw [if_neg h]
    exact valBE_digits n n (Nat.le_refl n)

/-- Splitting at the dot of a dot-free prefix recovers both parts. -/
theorem splitDot_no_dot : ∀ l₁ l₂ : List Char, (∀ c ∈ l₁, (c == '.') = false) →
    splitDot (l₁ ++ '.' :: l₂) = (l₁, some l₂) := by
  intro l₁
  induction l₁ with
  | nil =>
    intro l₂ _
    simp [splitDot]
  | cons c t ih =>
    intro l₂ h
    have hc : (c == '.') = false := h c (List.mem_cons_self c t)
    rw [List.cons_append]
    unfold splitDot
    rw [hc]
    simp only [Bool.false_eq_true, if_false]
    rw [ih l₂ (fun x hx => h x (List.mem_cons_of_mem c hx))]

/-- `dropWhile` is the identity when no element satisfies the predicate. -/
theorem dropWhile_all_neg {p : Char → Bool} (l : List Char)
    (h : ∀ c ∈ l, p c = false) : l.dropWhile p = l := by
  cases l with
  | nil => rfl
  | cons c t =>
    rw [List.dropWhile_cons, h c (List.mem_cons_self c t)]
    simp

/-- Stripping is the identity on whitespace-free character lists. -/
theorem stripChars_of_no_ws (l : List Char) (h : ∀ c ∈ l, isWs c = false) :
    stripChars l = l := by
  unfold stripChars
  rw [dropWhile_all_neg l.reverse (fun c hc => h c (List.mem_reverse.mp hc)),
    List.reverse_reverse]
  exact dropWhile_all_neg l h

/-- Evaluation of the numeric parser on a whitespace-free non-empty
character list. -/
theorem parseRat_eval (s : String) (c : Char) (l : List Char) (hs : s.data = c :: l)
    (h : ∀ x ∈ c :: l, isWs x = false) :
    parseRat s =
      (if c == '-' then (parsePosDec l).map Neg.neg
       else if c == '+' then parsePosDec l
       else parsePosDec (c :: l)) := by
  unfold parseRat
  rw [hs, stripChars_of_no_ws (c :: l) h]

/-- Reading back the two-decimal rendering of `m` pennies yields exactly
`m / 100`. -/
theorem parsePosDec_pennies (m : Nat) :
    parsePosDec (natToChars (m / 100) ++
        '.' :: [charOfDigit (m % 100 / 10), charOfDigit (m % 10)]) = some ((m : ℚ) / 100) := by
  have hnodot : ∀ c ∈ natToChars (m / 100), (c == '.') = false :=
    fun c hc => (natToChars_all _ c hc).2.1
  have hsplit := splitDot_no_dot (natToChars (m / 100))
    [charOfDigit (m % 100 / 10), charOfDigit (m % 10)] hnodot
  have hne : (natToChars (m / 100)).isEmpty = false := by
    cases hc : natToChars (m / 100) with
    | nil => exact absurd hc (natToChars_ne_nil _)
    | cons a t => rfl
  have hall : allDigits (natToChars (m / 100)) = true := by
    unfold allDigits
    rw [List.all_eq_true]
    exact fun c hc => (natToChars_all _ c hc).2.2.2.2
  have hfracAll : allDigits [charOfDigit (m % 100 / 10), charOfDigit (m % 10)] = true := by
    unfold allDigits
    rw [List.all_eq_true]
    intro c hc
    rcases List.mem_cons.mp hc with rfl | hc
    · exact (charOfDigit_props _).2.2.2.2
    · rcases List.mem_cons.mp hc with rfl | hc
      · exact (charOfDigit_props _).2.2.2.2
      · cases hc
  have hfrac : valBE [charOfDigit (m % 100 / 10), charOfDigit (m % 10)] = m % 100 := by
    unfold valBE
    simp only [List.foldl_cons, List.foldl_nil]
    rw [digitVal_charOfDigit (by omega), digitVal_charOfDigit (by omega)]
    simp only [Option.getD_some]
    omega
  simp only [parsePosDec, hsplit, hne, hall, hfracAll, Bool.not_false, Bool.true_or,
    Bool.and_self, if_true, valBE_natToChars, hfrac, List.length_cons, List.length_nil]
  congr 1
  have hm : 100 * (m / 100) + m % 100 = m := by omega
  have hcast : (m : ℚ) = 100 * ((m / 100 : ℕ) : ℚ) + ((m % 100 : ℕ) : ℚ) := by
    exact_mod_cast hm.symm
  rw [hcast]
  field_simp
  ring

/-- Rounding an integer is the identity. -/
theorem rne_intCast (n : ℤ) : rne (n : ℚ) = n := by
  unfold rne
  rw [Int.floor_intCast, sub_self]
  norm_num

/-- Stripping the currency formatting of the exact value `q` reads back the
half-even rounding of `q` to two decimal places. -/
theorem stripCurrency_fmtCurrency (q : ℚ) :
    stripCurrency (fmtCurrency q) = some ((rne (100 * q) : ℚ) / 100) := by
  have hstep : stripCurrency (fmtCurrency q) = parseRat ⟨(fmt2dp q).data⟩ := rfl
  rw [hstep]
  have hrest : ∀ x ∈ natToChars ((rne (100 * q)).natAbs / 100) ++
      '.' :: [charOfDigit ((rne (100 * q)).natAbs % 100 / 10),
        charOfDigit ((rne (100 * q)).natAbs % 10)], isWs x = false := by
    intro x hx
    rcases List.mem_append.mp hx with hx | hx
    · exact (natToChars_all _ x hx).1
    · rcases List.mem_cons.mp hx with rfl | hx
      · rfl
      · rcases List.mem_cons.mp hx with rfl | hx
        · exact (charOfDigit_props _).1
        · rcases List.mem_cons.mp hx with rfl | hx
          · exact (charOfDigit_props _).1
          · cases hx
  by_cases hp : rne (100 * q) < 0
  · have hdata : (fmt2dp q).data = '-' :: (natToChars ((rne (100 * q)).natAbs / 100) ++
        '.' :: [charOfDigit ((rne (100 * q)).natAbs % 100 / 10),
          charOfDigit ((rne (100 * q)).natAbs % 10)]) := by
      have hfmt : fmt2dp q = ⟨(if rne (100 * q) < 0 then ['-'] else []) ++
          natToChars ((rne (100 * q)).natAbs / 100) ++
          '.' :: [charOfDigit ((rne (100 * q)).natAbs % 100 / 10),
            charOfDigit ((rne (100 * q)).natAbs % 10)]⟩ := rfl
      rw [hfmt, if_pos hp]
      rfl
    rw [parseRat_eval ⟨(fmt2dp q).data⟩ '-' _ hdata
      (by
        rw [← hdata]
        intro x hx
        rw [hdata] at hx
        rcases List.mem_cons.mp hx with rfl | hx
        · rfl
        · exact hrest x hx)]
    rw [if_pos (show ('-' == '-') = true from rfl)]
    rw [parsePosDec_pennies ((rne (100 * q)).natAbs)]
    simp only [Option.map_some']
    congr 1
    have hiabs : |rne (100 * q)| = -rne (100 * q) := abs_of_neg hp
    have habs : (((rne (100 * q)).natAbs : ℚ)) = -((rne (100 * q) : ℤ) : ℚ) := by
      rw [Int.cast_natAbs, hiabs]
      push_cast
      ring
    rw [habs]
    ring
  · have hdata : (fmt2dp q).data = natToChars ((rne (100 * q)).natAbs / 100) ++
        '.' :: [charOfDigit ((rne (100 * q)).natAbs % 100 / 10),
          charOfDigit ((rne (100 * q)).natAbs % 10)] := by
      have hfmt : fmt2dp q = ⟨(if rne (100 * q) < 0 then ['-'] else []) ++
          natToChars ((rne (100 * q)).natAbs / 100) ++
          '.' :: [charOfDigit ((rne (100 * q)).natAbs % 100 / 10),
            charOfDigit ((rne (100 * q)).natAbs % 10)]⟩ := rfl
      rw [hfmt, if_neg hp]
      rfl
    obtain ⟨c, t, hct⟩ : ∃ c t, natToChars ((rne (100 * q)).natAbs / 100) = c :: t := by
      cases hnc : natToChars ((rne (100 * q)).natAbs / 100) with
      | nil => exact absurd hnc (natToChars_ne_nil _)
      | cons c t => exact ⟨c, t, rfl⟩
    have hcprops := natToChars_all ((rne (100 * q)).natAbs / 100) c
      (by rw [hct]; exact List.mem_cons_self c t)
    have hdata' : (fmt2dp q).data = c :: (t ++
        '.' :: [charOfDigit ((rne (100 * q)).natAbs % 100 / 10),
          charOfDigit ((rne (100 * q)).natAbs % 10)]) := by
      rw [hdata, hct]
      rfl
    rw [parseRat_eval ⟨(fmt2dp q).data⟩ c _ hdata'
      (by
        intro x hx
        rw [← List.cons_append, ← hct] at hx
        exact hrest x hx)]
    rw [if_neg (by rw [hcprops.2.2.1]; exact Bool.false_ne_true),
      if_neg (by rw [hcprops.2.2.2.1]; exact Bool.false_ne_true)]
    rw [← List.cons_append, ← hct, parsePosDec_pennies ((rne (100 * q)).natAbs)]
    congr 1
    have hiabs : |rne (100 * q)| = rne (100 * q) := abs_of_nonneg (Int.not_lt.mp hp)
    have habs : (((rne (100 * q)).natAbs : ℚ)) = ((rne (100 * q) : ℤ) : ℚ) := by
      rw [Int.cast_natAbs, hiabs]
    rw [habs]

/-- A totals cell of a nonzero sum carries the formatted currency text. -/
theorem currencyCell_of_ne (x : ℚ) (h : x ≠ 0) :
    currencyCell x = RCell.str (fmtCurrency x) := by
  unfold currencyCell
  rw [if_neg (by simp [beq_iff_eq, h])]

/-- A totals cell is blank exactly when the sum is zero. -/
theorem currencyCell_eq_empty_iff (x : ℚ) : currencyCell x = RCell.str "" ↔ x = 0 := by
  constructor
  · intro h
    by_contra hx
    rw [currencyCell_of_ne x hx] at h
    have hdat := congrArg String.data (RCell.str.inj h)
    simp [fmtCurrency] at hdat
  · intro h
    subst h
    unfold currencyCell
    rw [if_pos (by simp)]

/-- Any penny-exact value survives the currency formatting round trip
unchanged. -/
theorem penny_roundtrip (x : ℚ) (h : ∃ n : ℤ, x = (n : ℚ) / 100) :
    stripCurrency (fmtCurrency x) = some x := by
  obtain ⟨n, rfl⟩ := h
  rw [stripCurrency_fmtCurrency]
  congr 1
  have h100 : (100 : ℚ) * ((n : ℚ) / 100) = (n : ℚ) := by field_simp
  rw [h100, rne_intCast]

/-- Claim C4 (amended): every payer's totals row sits in the report with the
label `Total` in both description columns; each of its three amount cells is
blank exactly when the corresponding sum is zero, and otherwise carries the
currency text of the sum; stripping that text returns the sum rounded half
to even at two decimal places, which equals the exact sum whenever the sum
is a whole number of pennies (it differs on sub-penny sums, so the claim's
unconditional exact equality does not hold). -/
theorem claim_C4_totals_row (bk : List BRow) (st : List SRow) (p : String)
    (hp : p ∈ sortedPayers bk st) :
    totalRowFor p bk st ∈ create_side_by_side_format bk st ∧
    (totalRowFor p bk st).bkDesc = "Total" ∧
    (totalRowFor p bk st).stDesc = "Total" ∧
    ((totalRowFor p bk st).bkAmt = RCell.str "" ↔ bkSum p bk = 0) ∧
    (bkSum p bk ≠ 0 →
      (totalRowFor p bk st).bkAmt = RCell.str (fmtCurrency (bkSum p bk))) ∧
    stripCurrency (fmtCurrency (bkSum p bk)) =
      some ((rne (100 * bkSum p bk) : ℚ) / 100) ∧
    ((∃ n : ℤ, bkSum p bk = (n : ℚ) / 100) →
      stripCurrency (fmtCurrency (bkSum p bk)) = some (bkSum p bk)) ∧
    ((totalRowFor p bk st).stAmt = RCell.str "" ↔ stSum p st = 0) ∧
    (stSum p st ≠ 0 →
      (totalRowFor p bk st).stAmt = RCell.str (fmtCurrency (stSum p st))) ∧
    ((∃ n : ℤ, stSum p st = (n : ℚ) / 100) →
      stripCurrency (fmtCurrency (stSum p st)) = some (stSum p st)) ∧
    ((totalRowFor p bk st).stCredit = RCell.str "" ↔ stCreditSum p st = 0) ∧
    (stCreditSum p st ≠ 0 →
      (totalRowFor p bk st).stCredit = RCell.str (fmtCurrency (stCreditSum p st))) ∧
    ((∃ n : ℤ, stCreditSum p st = (n : ℚ) / 100) →
      stripCurrency (fmtCurrency (stCreditSum p st)) = some (stCreditSum p st)) := by
  refine ⟨?_, rfl, rfl, currencyCell_eq_empty_iff _, fun h => currencyCell_of_ne _ h,
    stripCurrency_fmtCurrency _, penny_roundtrip _, currencyCell_eq_empty_iff _,
    fun h => currencyCell_of_ne _ h, penny_roundtrip _, currencyCell_eq_empty_iff _,
    fun h => currencyCell_of_ne _ h, penny_roundtrip _⟩
  exact List.mem_flatMap.mpr ⟨p, hp,
    List.mem_append_left _ (List.mem_append_right _ (List.mem_singleton.mpr rfl))⟩

/-- Witness for claim C4: on penny-exact concrete data the totals row is
labelled and its formatted sums strip back to the exact sums. -/
theorem claim_C4_witness :
    (totalRowFor "A" bkW4 stW4).bkDesc = "Total" ∧
    stripCurrency (fmtCurrency (bkSum "A" bkW4)) = some (bkSum "A" bkW4) ∧
    stripCurrency (fmtCurrency (stCreditSum "A" stW4)) = some (stCreditSum "A" stW4) := by
  have h := claim_C4_totals_row bkW4 stW4 "A" (by decide)
  refine ⟨h.2.1, h.2.2.2.2.2.2.1 ⟨150, ?_⟩,
    h.2.2.2.2.2.2.2.2.2.2.2.2 ⟨125, ?_⟩⟩
  · show bkSum "A" bkW4 = (150 : ℤ) / 100
    have : bkSum "A" bkW4 = 3 / 2 := by
      simp [bkSum, bkFor, bkW4]
    rw [this]
    norm_num
  · show stCreditSum "A" stW4 = (125 : ℤ) / 100
    have : stCreditSum "A" stW4 = 5 / 4 := by
      simp [stCreditSum, stFor, stW4]
    rw [this]
    norm_num

/-- Counterexample to claim C4 as stated: a payer whose only unmatched
Bookkeeping amount is `1/250` (0.4 pennies) has a nonzero sum, so the totals
cell shows `£0.00`; stripping the currency formatting returns `0`, not the
exact sum `1/250`. -/
theorem claim_C4_counterexample :
    bkSum "A" subPennyBk = 1 / 250 ∧
    (totalRowFor "A" subPennyBk []).bkAmt = RCell.str (fmtCurrency (1 / 250)) ∧
    fmtCurrency ((1 : ℚ) / 250) = "£0.00" ∧
    stripCurrency (fmtCurrency ((1 : ℚ) / 250)) = some 0 ∧
    (1 : ℚ) / 250 ≠ 0 ∧
    (0 : ℚ) ≠ 1 / 250 := by
  have hsum : bkSum "A" subPennyBk = 1 / 250 := by
    simp [bkSum, bkFor, subPennyBk]
  have hrne : rne (100 * ((1 : ℚ) / 250)) = 0 := by
    rw [show (100 : ℚ) * (1 / 250) = 2 / 5 by norm_num]
    have hfl : ⌊(2 : ℚ) / 5⌋ = 0 := by norm_num
    unfold rne
    rw [hfl]
    rw [if_pos (by push_cast; norm_num)]
  have hfmt : fmtCurrency ((1 : ℚ) / 250) = "£0.00" := by
    have hdata : (fmt2dp ((1 : ℚ) / 250)).data = ['0', '.', '0', '0'] := by
      have hexp : (fmt2dp ((1 : ℚ) / 250)).data =
          (if rne (100 * ((1 : ℚ) / 250)) < 0 then ['-'] else []) ++
            natToChars ((rne (100 * ((1 : ℚ) / 250))).natAbs / 100) ++
            '.' :: [charOfDigit ((rne (100 * ((1 : ℚ) / 250))).natAbs % 100 / 10),
              charOfDigit ((rne (100 * ((1 : ℚ) / 250))).natAbs % 10)] := rfl
      rw [hexp, hrne]
      decide
    have hstep : fmtCurrency ((1 : ℚ) / 250) = ⟨'£' :: (fmt2dp ((1 : ℚ) / 250)).data⟩ := rfl
    rw [hstep, hdata]
  refine ⟨hsum, ?_, hfmt, ?_, by norm_num, by norm_num⟩
  · show currencyCell (bkSum "A" subPennyBk) = _
    rw [hsum]
    exact currencyCell_of_ne _ (by norm_num)
  · rw [stripCurrency_fmtCurrency, hrne]
    norm_num

/-- When every required column resolves, the selection pairs each canonical
name, in order, with its resolved header. -/
theorem filterMap_resolve (avail : List String) :
    ∀ req : List String, (∀ c ∈ req, (resolveCol avail c).isNone = false) →
      (req.filterMap (fun c => (resolveCol avail c).map (fun h => (c, h)))).map Prod.fst =
          req ∧
        ∀ pr ∈ req.filterMap (fun c => (resolveCol avail c).map (fun h => (c, h))),
          resolveCol avail pr.1 = some pr.2 := by
  intro req
  induction req with
  | nil => intro _; exact ⟨rfl, fun pr hpr => absurd hpr (List.not_mem_nil pr)⟩
  | cons c t ih =>
    intro h
    have hc : (resolveCol avail c).isNone = false := h c (List.mem_cons_self c t)
    obtain ⟨hd, hhd⟩ : ∃ hd, resolveCol avail c = some hd := by
      cases hr : resolveCol avail c with
      | none => rw [hr] at hc; exact absurd hc (by simp)
      | some hd => exact ⟨hd, rfl⟩
    obtain ⟨ih1, ih2⟩ := ih (fun x hx => h x (List.mem_cons_of_mem c hx))
    simp only [List.filterMap_cons, hhd, Option.map_some']
    refine ⟨by rw [List.map_cons, ih1], ?_⟩
    intro pr hpr
    rcases List.mem_cons.mp hpr with rfl | hpr
    · exact hhd
    · exact ih2 pr hpr

/-- Claim C7: the loader resolves each required column by exact header match
first, falling back to the first case-insensitive match; it fails exactly
when some required name resolves neither way, and the error names all (and
only) the unmatched fields; on success the selection consists of exactly the
required columns in order, each renamed from its resolved header. -/
theorem claim_C7_column_resolution (available required : List String) :
    (∀ c, c ∈ available → resolveCol available c = some c) ∧
    (∀ c, c ∉ available →
      resolveCol available c = available.find? (fun col => lowerStr col == lowerStr c)) ∧
    (∀ c, c ∉ available → (∀ h ∈ available, lowerStr h ≠ lowerStr c) →
      resolveCol available c = none) ∧
    (∀ errs, loadSelect available required = Except.error errs ↔
      (errs = required.filter (fun c => (resolveCol available c).isNone) ∧ errs ≠ [])) ∧
    (∀ sel, loadSelect available required = Except.ok sel →
      sel.map Prod.fst = required ∧ ∀ pr ∈ sel, resolveCol available pr.1 = some pr.2) := by
  refine ⟨?_, ?_, ?_, ?_, ?_⟩
  · intro c hc
    unfold resolveCol
    rw [if_pos (by simpa [List.elem_iff] using hc)]
  · intro c hc
    unfold resolveCol
    rw [if_neg (by simpa [List.elem_iff] using hc)]
  · intro c hc hno
    unfold resolveCol
    rw [if_neg (by simpa [List.elem_iff] using hc)]
    rw [List.find?_eq_none]
    intro x hx
    simp [beq_iff_eq]
    exact hno x hx
  · intro errs
    unfold loadSelect missingCols
    by_cases hm : required.filter (fun c => (resolveCol available c).isNone) = []
    · rw [if_pos hm]
      constructor
      · intro hcon
        exact absurd hcon (by simp)
      · rintro ⟨rfl, hne⟩
        exact absurd hm hne
    · rw [if_neg hm]
      constructor
      · intro heq
        have herrs : errs = required.filter (fun c => (resolveCol available c).isNone) :=
          (Except.error.inj heq).symm
        exact ⟨herrs, by rw [herrs]; exact hm⟩
      · rintro ⟨rfl, _⟩
        rfl
  · intro sel hsel
    unfold loadSelect missingCols at hsel
    by_cases hm : required.filter (fun c => (resolveCol available c).isNone) = []
    · rw [if_pos hm] at hsel
      have hall : ∀ c ∈ required, (resolveCol available c).isNone = false := by
        intro c hc
        by_contra hcon
        have : (resolveCol available c).isNone = true := by
          cases h : (resolveCol available c).isNone
          · exact absurd h hcon
          · rfl
        have : c ∈ required.filter (fun c => (resolveCol available c).isNone) :=
          List.mem_filter.mpr ⟨hc, this⟩
        rw [hm] at this
        exact absurd this (List.not_mem_nil c)
      obtain ⟨h1, h2⟩ := filterMap_resolve available required hall
      rw [← Except.ok.inj hsel]
      exact ⟨h1, h2⟩
    · rw [if_neg hm] at hsel
      exact absurd hsel (by simp)

/-- Witness for claim C7 on concrete headers: an exact match resolves to
itself, a case-insensitive-only match resolves through the fallback, and the
successful selection renames exactly the required columns in order. -/
theorem claim_C7_witness :
    resolveCol headersW "Description" = some "Description" ∧
    resolveCol headersW "Payer" =
      headersW.find? (fun col => lowerStr col == lowerStr "Payer") ∧
    ([("Payer", "payer"), ("Description", "Description"),
        ("Signed Total Amount", "Signed Total Amount")].map Prod.fst = bookkeepingColumns ∧
      ∀ pr ∈ [("Payer", "payer"), ("Description", "Description"),
          ("Signed Total Amount", "Signed Total Amount")],
        resolveCol headersW pr.1 = some pr.2) := by
  have h := claim_C7_column_resolution headersW bookkeepingColumns
  exact ⟨h.1 "Description" (by decide), h.2.1 "Payer" (by decide),
    h.2.2.2.2 [("Payer", "payer"), ("Description", "Description"),
      ("Signed Total Amount", "Signed Total Amount")] rfl⟩

/-- Claim C9: the enrichment Location rule is a strict-less-than threshold
at 250: `Central` exactly when the signed-total-amount cell parses to a
number strictly below 250, the empty string otherwise (including unparseable
values); 249.99 is `Central` and 250.00 is not. -/
theorem claim_C9_location_rule (c : ACell) :
    (locationOf c = "Central" ↔ ∃ q, toNumericCell c = some q ∧ q < 250) ∧
    (locationOf c ≠ "Central" → locationOf c = "") ∧
    locationOf (ACell.anum (24999 / 100)) = "Central" ∧
    locationOf (ACell.anum 250) = "" := by
  have hc : locationOf (ACell.anum (24999 / 100)) = "Central" := by
    show (if (24999 / 100 : ℚ) < 250 then "Central" else "") = "Central"
    rw [if_pos (by norm_num)]
  have h250 : locationOf (ACell.anum 250) = "" := by
    show (if (250 : ℚ) < 250 then "Central" else "") = ""
    rw [if_neg (by norm_num)]
  cases hn : toNumericCell c with
  | none =>
    have hloc : locationOf c = "" := by
      unfold locationOf
      rw [hn]
    refine ⟨?_, fun _ => hloc, hc, h250⟩
    rw [hloc]
    constructor
    · intro hcon
      exact absurd hcon (by decide)
    · rintro ⟨q, hq, _⟩
      exact absurd hq (by simp)
  | some q =>
    have hloc : locationOf c = if q < 250 then "Central" else "" := by
      unfold locationOf
      rw [hn]
    by_cases hlt : q < 250
    · rw [if_pos hlt] at hloc
      exact ⟨⟨fun _ => ⟨q, rfl, hlt⟩, fun _ => hloc⟩,
        fun hcon => absurd hloc hcon, hc, h250⟩
    · rw [if_neg hlt] at hloc
      refine ⟨⟨fun hcon => ?_, fun hex => ?_⟩, fun _ => hloc, hc, h250⟩
      · rw [hloc] at hcon
        exact absurd hcon (by decide)
      · obtain ⟨q', hq', hlt'⟩ := hex
        exact absurd (Option.some.inj hq' ▸ hlt') hlt

/-- Witness for claim C9 at the spec's threshold scenario. -/
theorem claim_C9_witness :
    locationOf (ACell.anum (24999 / 100)) = "Central" ∧
      locationOf (ACell.anum 250) = "" :=
  ⟨(claim_C9_location_rule ACell.anull).2.2.1, (claim_C9_location_rule ACell.anull).2.2.2⟩

/-- Claim C8 (amended): in the reconciliation workflow every error kind
aborts the run — a missing input file, a missing output directory, missing
required columns, an empty cleaning result, and a write failure each
propagate out of `main` with nothing produced.  The enrichment workflow, by
contrast, swallows exceptions at every stage, not only at the
missing-column check of the summary stage: it always completes normally,
and a summary-stage failure leaves the already written `Data` sheet behind
as partial output. -/
theorem claim_C8_error_propagation :
    (∀ st o w, recRun none st o w = Except.error Err.fileNotFound) ∧
    (∀ t o w, recRun (some t) none o w = Except.error Err.fileNotFound) ∧
    (∀ t u w, recRun (some t) (some u) false w = Except.error Err.fileNotFound) ∧
    (∀ t u w, missingCols t.headers bookkeepingColumns ≠ [] →
      recRun (some t) (some u) true w = Except.error Err.missingColumns) ∧
    (∀ t u w, missingCols t.headers bookkeepingColumns = [] →
      clean_data true t.rows = [] →
      recRun (some t) (some u) true w = Except.error Err.emptyAfterCleaning) ∧
    (∀ t u, missingCols t.headers bookkeepingColumns = [] →
      clean_data true t.rows ≠ [] →
      missingCols u.headers statementColumns = [] →
      clean_data false u.rows ≠ [] →
      recRun (some t) (some u) true false = Except.error Err.generic) ∧
    (∀ csv ref, ∃ out, enrichWorkflow csv ref = Except.ok out) ∧
    (∀ (t : CsvTable) (wb : RefWb) emp acct, wb.employee = some emp →
      wb.account = some acct →
      findColLike (dataSheetCols t.cols) "expense account" = none →
      (enrich_and_save_excel (some t) (some wb)).dataSheet =
          some (t.rows.map (enrichRow emp ((findColLike t.cols "signed total amount").isSome))) ∧
        (enrich_and_save_excel (some t) (some wb)).summarySheet = none) := by
  refine ⟨fun _ _ _ => rfl, fun _ _ _ => rfl, fun _ _ _ => rfl, ?_, ?_, ?_,
    fun _ _ => ⟨_, rfl⟩, ?_⟩
  · intro t u w h
    have hload : loadSelect t.headers bookkeepingColumns =
        Except.error (missingCols t.headers bookkeepingColumns) := by
      unfold loadSelect
      rw [if_neg h]
    simp only [recRun, hload]
    rfl
  · intro t u w h hclean
    have hload : loadSelect t.headers bookkeepingColumns =
        Except.ok (bookkeepingColumns.filterMap
          (fun c => (resolveCol t.headers c).map (fun hd => (c, hd)))) := by
      unfold loadSelect
      rw [if_pos h]
    simp only [recRun, hload, hclean]
    rfl
  · intro t u h1 h2 h3 h4
    have hload1 : loadSelect t.headers bookkeepingColumns =
        Except.ok (bookkeepingColumns.filterMap
          (fun c => (resolveCol t.headers c).map (fun hd => (c, hd)))) := by
      unfold loadSelect
      rw [if_pos h1]
    have hload2 : loadSelect u.headers statementColumns =
        Except.ok (statementColumns.filterMap
          (fun c => (resolveCol u.headers c).map (fun hd => (c, hd)))) := by
      unfold loadSelect
      rw [if_pos h3]
    have hbk : (clean_data true t.rows).isEmpty = false := by
      cases hcase : clean_data true t.rows with
      | nil => exact absurd hcase h2
      | cons a l => rfl
    have hst : (clean_data false u.rows).isEmpty = false := by
      cases hcase : clean_data false u.rows with
      | nil => exact absurd hcase h4
      | cons a l => rfl
    simp only [recRun, hload1, hload2, hbk, hst]
    rfl
  · intro t wb emp acct he ha hcol
    rcases wb with ⟨we, wa⟩
    simp only at he ha
    subst he
    subst ha
    exact ⟨rfl, by simp [enrich_and_save_excel, generate_summary_only, hcol]⟩

/-- Counterexample to claim C8 as stated: a missing input file in the
enrichment workflow is caught and the run completes normally (no abort),
while the same condition aborts the reconciliation workflow; the claimed
single exception covers only the summary stage's missing-column case. -/
theorem claim_C8_counterexample :
    enrichWorkflow none (some refWbW) = Except.ok ⟨none, none⟩ ∧
      recRun none (some goodStTable) true true = Except.error Err.fileNotFound :=
  ⟨rfl, rfl⟩

/-- Witness for claim C8 on concrete data: unresolvable Bookkeeping headers
abort reconciliation with a missing-columns error; the enrichment workflow
returns normally, and a summary stage lacking its required columns leaves
the `Data` sheet written with no `Summary` sheet. -/
theorem claim_C8_witness :
    recRun (some ⟨["Wrong"], []⟩) (some goodStTable) true true =
      Except.error Err.missingColumns ∧
    (∃ out, enrichWorkflow (some csvW) (some refWbW) = Except.ok out) ∧
    (enrich_and_save_excel (some csvW) (some refWbW)).dataSheet ≠ none ∧
    (enrich_and_save_excel (some csvW) (some refWbW)).summarySheet = none := by
  have h := claim_C8_error_propagation
  have hi := h.2.2.2.2.2.2.2 csvW refWbW [] () rfl rfl (by decide)
  refine ⟨h.2.2.2.1 ⟨["Wrong"], []⟩ goodStTable true (by decide),
    h.2.2.2.2.2.2.1 (some csvW) (some refWbW), ?_, hi.2⟩
  rw [hi.1]
  simp
